import Mathlib

/-!
# inv-ident: the identifier-inverting driver of `main.go`

A shallow embedding of `run`, `exitErr` and `FlipCmd.invert` from `main.go`,
with the streaming reader and writer of `pkg/js` (which `main.go` only calls)
represented by scripted objects: a reader is the finite list of results its
successive `Read` calls give, a writer is the list of results its successive
`Write` calls give together with the records it has been handed so far.
-/

namespace InvIdent

/-! ## Data model -/

/-- Modelled from the spec: the record type `dsc3.Relation` is declared in an
imported package; only the six string fields that `main.go` and the
specification name are kept. -/
structure Relation where
  objectType : String
  objectId : String
  relation : String
  subjectType : String
  subjectId : String
  subjectRelation : String
deriving DecidableEq, Repr

/-- A Go `error` value. `eof` is the distinguished value `io.EOF`, which the
driver recognises by identity; every other error is known by its text. -/
inductive GoError where
  | eof
  | other (text : String)
deriving DecidableEq, Repr

/-- The method `err.Error()`: the text of an error. -/
def GoError.Error : GoError → String
  | .eof => "EOF"
  | .other text => text

/-- Whether the characters `sub` occur contiguously somewhere in `s`. -/
def containsChars (sub : List Char) : List Char → Bool
  | [] => sub.isEmpty
  | c :: cs => sub.isPrefixOf (c :: cs) || containsChars sub cs

/-- The library function `strings.Contains(s, substr)`. -/
def stringsContains (s substr : String) : Bool :=
  containsChars substr.data s.data

/-- The test of line 151: `strings.Contains(err.Error(), "unknown field")`. -/
def isUnknownField (err : GoError) : Bool :=
  stringsContains err.Error "unknown field"

/-- Exit code constant `rcOK`. -/
def rcOK : Int := 0

/-- Exit code constant `rcErr`. -/
def rcErr : Int := 1

/-! ## The scripted reader and writer -/

/-- What one call `relReader.Read(&msg)` does: either it decodes an element
and stores it in `msg` (all fields overwritten), or it returns an error and
leaves `msg` holding `leftover`, whatever the decoder had filled in. -/
inductive ReadResult where
  | ok (decoded : Relation)
  | fail (err : GoError) (leftover : Relation)
deriving DecidableEq, Repr

/-- Modelled from the spec: `js.Reader` is not part of `main.go`. A reader is
the list of results its coming `Read` calls will give (once the list is used
up, `Read` returns `io.EOF`) and the number of `Close` calls it has received. -/
structure Reader where
  pending : List ReadResult
  closed : Nat
deriving DecidableEq, Repr

/-- Modelled from the spec: `js.Writer` is not part of `main.go`. A writer is
the list of results its coming `Write` calls will give (`none` is success;
once the list is used up every `Write` succeeds), the records handed to
`Write` so far, in call order, and the number of `Close` calls received. -/
structure Writer where
  results : List (Option GoError)
  passed : List Relation
  closed : Nat
deriving DecidableEq, Repr

/-- The call `relReader.Read(&msg)`: returned error, new content of `msg`,
reader afterwards. -/
def Reader.Read (rd : Reader) (msg : Relation) : Option GoError × Relation × Reader :=
  match rd.pending with
  | [] => (some .eof, msg, rd)
  | .ok decoded :: rest => (none, decoded, { rd with pending := rest })
  | .fail err leftover :: rest => (some err, leftover, { rd with pending := rest })

/-- The call `relReader.Close()`. -/
def Reader.Close (rd : Reader) : Reader :=
  { rd with closed := rd.closed + 1 }

/-- The call `relWriter.Write(&msg)`: returned error and writer afterwards. -/
def Writer.Write (w : Writer) (msg : Relation) : Option GoError × Writer :=
  match w.results with
  | [] => (none, { w with passed := w.passed ++ [msg] })
  | res :: rest => (res, { w with results := rest, passed := w.passed ++ [msg] })

/-- The call `relWriter.Close()`. -/
def Writer.Close (w : Writer) : Writer :=
  { w with closed := w.closed + 1 }

/-! ## The transform (lines 157 to 171 of `invert`) -/

/-- The call `log.Fatalf(format, &msg)`: the process exits at once with
status 1; deferred calls of the running functions are not executed. -/
structure Fatal where
  format : String
  arg : Relation
deriving DecidableEq, Repr

/-- The call of line 159: `log.Fatalf("subject_relation is not empty\n%v", &msg)`. -/
def invariantFatal (msg : Relation) : Fatal :=
  ⟨"subject_relation is not empty\n%v", msg⟩

/-- Result of the block of lines 157 to 171 on the current `msg`. -/
inductive Transformed where
  | fatal (f : Fatal)
  | ok (msg : Relation)
deriving DecidableEq, Repr

/-- Lines 157 to 171: the `if msg.Relation == "identifier"` block. -/
def transform (msg : Relation) : Transformed :=
  if msg.relation = "identifier" then
    if msg.subjectRelation ≠ "" then
      .fatal (invariantFatal msg)
    else
      let objType := msg.objectType
      let objID := msg.objectId
      let subType := msg.subjectType
      let subID := msg.subjectId
      .ok { msg with
            objectType := subType, objectId := subID,
            subjectType := objType, subjectId := objID }
  else
    .ok msg

/-! ## The driver loop and `invert` -/

/-- How the loop, or `invert`, ends: by returning an error value (`none` is
`nil`), or by the process exit of `log.Fatalf`. -/
inductive Exit where
  | returned (err : Option GoError)
  | fatal (f : Fatal)
deriving DecidableEq, Repr

/-- State at the end of the `for` loop of lines 145 to 176. -/
structure LoopEnd where
  exit : Exit
  unread : List ReadResult
  writer : Writer
deriving DecidableEq, Repr

/-- The `for` loop of lines 145 to 176, by recursion on the results the
reader still has to give; `msg` is the variable of line 143. -/
def loop (_msg : Relation) (w : Writer) : List ReadResult → LoopEnd
  | [] =>
    -- Read returns io.EOF: break
    ⟨.returned none, [], w⟩
  | .fail err leftover :: rest =>
    if err = .eof then
      ⟨.returned none, rest, w⟩
    else if isUnknownField err then
      loop leftover w rest
    else
      ⟨.returned (some err), rest, w⟩
  | .ok decoded :: rest =>
    match transform decoded with
    | .fatal f => ⟨.fatal f, rest, w⟩
    | .ok msg1 =>
      match w.Write msg1 with
      | (some err, w1) => ⟨.returned (some err), rest, w1⟩
      | (none, w1) => loop msg1 w1 rest

/-- A `context.Context` as far as cancellation goes: `doneFrom = some k` says
the context is cancelled from the moment `k` loop iterations have completed
(`some 0`: already cancelled on entry), `none` that it never is. -/
structure Context where
  doneFrom : Option Nat
deriving DecidableEq, Repr

/-- State of the world when `invert` is over: how it ended, and the reader and
the writer if they were opened. -/
structure Outcome where
  exit : Exit
  reader : Option Reader
  writer : Option Writer
deriving DecidableEq, Repr

/-- The zero value of `dsc3.Relation`, the initial content of `var msg`. -/
def Relation.zero : Relation := ⟨"", "", "", "", "", ""⟩

/-- `FlipCmd.invert`. `newReader` and `newWriter` are the results that
`js.NewReader(r)` and `js.NewWriter(w, "relations")` give. A function that
returns runs its deferred `Close` calls; the exit of `log.Fatalf` does not. -/
def invert (_ctx : Context) (newReader : Except GoError Reader)
    (newWriter : Except GoError Writer) : Outcome :=
  match newReader with
  | .error err => ⟨.returned (some err), none, none⟩
  | .ok relReader =>
    match newWriter with
    | .error err => ⟨.returned (some err), some relReader.Close, none⟩
    | .ok relWriter =>
      let fin := loop Relation.zero relWriter relReader.pending
      match fin.exit with
      | .fatal f =>
        ⟨.fatal f, some { relReader with pending := fin.unread }, some fin.writer⟩
      | .returned err =>
        ⟨.returned err, some (Reader.Close { relReader with pending := fin.unread }),
          some fin.writer.Close⟩

/-! ## `run` and `exitErr` -/

/-- What `run` leaves behind: its return value and the lines printed on the
standard error channel. -/
structure RunResult where
  exitCode : Int
  stderr : List String
deriving DecidableEq, Repr

/-- `exitErr`: prints the error text as a line on standard error, returns
`rcErr`. -/
def exitErr (err : GoError) (stderr : List String) : Int × List String :=
  (rcErr, stderr ++ [err.Error])

/-- `run`, given the value `kongRun` returned by `kongCtx.Run()`, which is
the value returned by the command. The result of `exitErr` is not used. -/
def run (kongRun : Option GoError) : RunResult :=
  match kongRun with
  | some err =>
    let (_, stderr) := exitErr err []
    ⟨rcOK, stderr⟩
  | none => ⟨rcOK, []⟩

/-! ## Vocabulary of the specification -/

/-- The record `r` with its object pair and its subject pair exchanged. -/
def swapped (r : Relation) : Relation :=
  ⟨r.subjectType, r.subjectId, r.relation, r.objectType, r.objectId, r.subjectRelation⟩

/-- What the specification expects on the output for an input record: the
swapped record for an identifier relation, the record itself otherwise. -/
def expected (r : Relation) : Relation :=
  if r.relation = "identifier" then swapped r else r

/-- The invariant of the data model: an identifier relation has an empty
subject relation. -/
def Valid (r : Relation) : Prop :=
  r.relation = "identifier" → r.subjectRelation = ""

instance (r : Relation) : Decidable (Valid r) := by
  unfold Valid; infer_instance

/-- The successfully decoded records among the results of a reader. -/
def decodedOf : List ReadResult → List Relation
  | [] => []
  | .ok r :: rest => r :: decodedOf rest
  | .fail _ _ :: rest => decodedOf rest

/-- A read result the loop gets past: a decoded record that satisfies the
invariant, or an error whose text has the words of the unknown-field error. -/
def Passes : ReadResult → Prop
  | .ok r => Valid r
  | .fail err _ => isUnknownField err = true

instance (x : ReadResult) : Decidable (Passes x) := by
  cases x <;> unfold Passes <;> infer_instance

/-- The first `k` coming `Write` calls of a writer with script `results`
succeed. -/
def WritesOk (results : List (Option GoError)) (k : Nat) : Prop :=
  ∀ o ∈ results.take k, o = none

instance (results : List (Option GoError)) (k : Nat) : Decidable (WritesOk results k) := by
  unfold WritesOk; infer_instance

/-- The loop comes to an end-of-stream: it gets past a run `pre` of results
and then either the results are used up or the reader returns `io.EOF`. -/
def ReachesEOF (pending : List ReadResult) (results : List (Option GoError)) : Prop :=
  ∃ pre, (∀ x ∈ pre, Passes x) ∧ WritesOk results (decodedOf pre).length ∧
    (pending = pre ∨ ∃ leftover post, pending = pre ++ .fail .eof leftover :: post)

/-! ## Sample data -/

/-- First record of the end-to-end scenario. -/
def sampleUser : Relation := ⟨"user", "u1", "identifier", "identity", "i1", ""⟩

/-- Second record of the end-to-end scenario. -/
def sampleGroup : Relation := ⟨"group", "g1", "member", "user", "u2", ""⟩

/-- An identifier record that breaks the invariant. -/
def sampleBad : Relation := ⟨"user", "u1", "identifier", "identity", "i1", "x"⟩

/-- An error of the decoder for an element with a field it does not know. -/
def sampleUnknown : GoError := .other "proto: (line 1:2): unknown field \"extra\""

/-- An error of the decoder that is not about an unknown field. -/
def sampleSyntaxErr : GoError := .other "proto: syntax error (line 1:2): invalid value"

/-- An error of the decoder of another kind, an invalid value, whose text
quotes the offending value, here the words "unknown field". -/
def sampleQuoting : GoError :=
  .other "proto: invalid google.protobuf.Timestamp value \"unknown field\""

/-- An error of the byte sink. -/
def sampleSinkErr : GoError := .other "write out.json: no space left on device"

/-! ## Lemmas on the transform and the loop -/

theorem transform_of_valid (r : Relation) (h : Valid r) :
    transform r = .ok (expected r) := by
  unfold transform expected swapped
  by_cases hrel : r.relation = "identifier"
  · simp [hrel, h hrel]
  · simp [hrel]

theorem valid_of_transform_ok (r m : Relation) (h : transform r = .ok m) : Valid r := by
  intro hrel
  by_contra hsub
  simp [transform, hrel, hsub] at h

theorem eof_not_unknownField : isUnknownField .eof = false := by decide

theorem ne_eof_of_unknownField (err : GoError) (h : isUnknownField err = true) :
    err ≠ .eof := by
  rintro rfl
  simp [eof_not_unknownField] at h

/-- The loop never looks at the content `msg` has on entry. -/
theorem loop_msg_irrel (m1 m2 : Relation) (w : Writer) (pending : List ReadResult) :
    loop m1 w pending = loop m2 w pending := by
  cases pending with
  | nil => rfl
  | cons x rest => cases x <;> rfl

/-- One iteration of the loop, written with `Reader.Read`. -/
theorem loop_iteration (msg : Relation) (w : Writer) (rd : Reader) :
    loop msg w rd.pending =
      match rd.Read msg with
      | (some err, msg1, rd1) =>
        if err = .eof then ⟨.returned none, rd1.pending, w⟩
        else if isUnknownField err then loop msg1 w rd1.pending
        else ⟨.returned (some err), rd1.pending, w⟩
      | (none, msg1, rd1) =>
        match transform msg1 with
        | .fatal f => ⟨.fatal f, rd1.pending, w⟩
        | .ok msg2 =>
          match w.Write msg2 with
          | (some err, w1) => ⟨.returned (some err), rd1.pending, w1⟩
          | (none, w1) => loop msg2 w1 rd1.pending := by
  obtain ⟨pending, closed⟩ := rd
  cases pending with
  | nil => simp [loop, Reader.Read]
  | cons x rest => cases x <;> simp [loop, Reader.Read]

theorem write_of_writesOk (results : List (Option GoError)) (passed : List Relation)
    (closed k : Nat) (m : Relation) (h : WritesOk results (k + 1)) :
    Writer.Write ⟨results, passed, closed⟩ m = (none, ⟨results.drop 1, passed ++ [m], closed⟩)
      ∧ WritesOk (results.drop 1) k := by
  cases results with
  | nil => simp [Writer.Write, WritesOk]
  | cons res rest =>
    have hres : res = none := h res (by simp)
    refine ⟨by simp [Writer.Write, hres], ?_⟩
    intro o ho
    exact h o (by simp at ho ⊢; exact Or.inr ho)

/-- The loop on results that begin with a run `pre` it gets past: it goes on
with what follows, having handed the expected records to the writer. -/
theorem loop_passes (pre rest : List ReadResult) (hpre : ∀ x ∈ pre, Passes x) :
    ∀ (m1 m2 : Relation) (results : List (Option GoError)) (passed : List Relation)
      (closed : Nat), WritesOk results (decodedOf pre).length →
      loop m1 ⟨results, passed, closed⟩ (pre ++ rest) =
        loop m2 ⟨results.drop (decodedOf pre).length,
          passed ++ (decodedOf pre).map expected, closed⟩ rest := by
  induction pre with
  | nil =>
    intro m1 m2 results passed closed _
    simpa [decodedOf] using loop_msg_irrel m1 m2 _ rest
  | cons x tl ih =>
    have htl : ∀ y ∈ tl, Passes y := fun y hy => hpre y (List.mem_cons_of_mem _ hy)
    have hx : Passes x := hpre x (List.mem_cons_self _ _)
    intro m1 m2 results passed closed hw
    cases x with
    | ok r =>
      have hv : Valid r := hx
      simp only [decodedOf, List.length_cons] at hw
      obtain ⟨hwr, hw1⟩ := write_of_writesOk results passed closed _ (expected r) hw
      simp only [List.cons_append, loop, transform_of_valid r hv, hwr, List.append_eq]
      rw [ih htl (expected r) m2 (results.drop 1) (passed ++ [expected r]) closed hw1]
      simp [decodedOf, List.drop_drop, Nat.add_comm]
    | fail err leftover =>
      have hu : isUnknownField err = true := hx
      simp only [decodedOf] at hw
      simp only [List.cons_append, loop, ne_eof_of_unknownField err hu, hu, if_true, if_false,
        List.append_eq]
      simpa [decodedOf] using ih htl leftover m2 results passed closed hw

theorem decodedOf_map_ok (rs : List Relation) : decodedOf (rs.map .ok) = rs := by
  induction rs with
  | nil => rfl
  | cons r tl ih => simp [decodedOf, ih]

theorem passes_map_ok (rs : List Relation) (h : ∀ r ∈ rs, Valid r) :
    ∀ x ∈ rs.map ReadResult.ok, Passes x := by
  intro x hx
  obtain ⟨r, hr, rfl⟩ := List.mem_map.mp hx
  exact h r hr

theorem writesOk_of_all (results : List (Option GoError)) (k : Nat)
    (h : ∀ o ∈ results, o = none) : WritesOk results k :=
  fun o ho => h o (List.mem_of_mem_take ho)

/-- With reader and writer opened, `invert` ends the way its loop ends. -/
theorem invert_exit (ctx : Context) (rd : Reader) (w : Writer) :
    (invert ctx (.ok rd) (.ok w)).exit = (loop Relation.zero w rd.pending).exit := by
  simp only [invert]
  cases (loop Relation.zero w rd.pending).exit <;> rfl

/-- The loop calls `Close` on nothing: the writer keeps its count. -/
theorem loop_writer_closed (pending : List ReadResult) :
    ∀ (m : Relation) (w : Writer), (loop m w pending).writer.closed = w.closed := by
  induction pending with
  | nil => intro m w; rfl
  | cons x tl ih =>
    intro m w
    cases x with
    | fail err leftover =>
      simp only [loop]
      split_ifs <;> first | rfl | exact ih _ _
    | ok r =>
      simp only [loop]
      cases transform r with
      | fatal f => rfl
      | ok m1 =>
        obtain ⟨results, passed, closed⟩ := w
        cases results with
        | nil => simpa [Writer.Write] using ih m1 _
        | cons res rest =>
          cases res with
          | none => simpa [Writer.Write] using ih m1 _
          | some e => simp [Writer.Write]

/-- The loop returns `nil` exactly when it comes to an end-of-stream. -/
theorem loop_nil_iff (pending : List ReadResult) :
    ∀ (m : Relation) (w : Writer),
      (loop m w pending).exit = .returned none ↔ ReachesEOF pending w.results := by
  induction pending with
  | nil =>
    intro m w
    simp only [loop, true_iff]
    exact ⟨[], by simp, by simp [WritesOk, decodedOf], Or.inl rfl⟩
  | cons x tl ih =>
    intro m w
    obtain ⟨results, passed, closed⟩ := w
    constructor
    · intro h
      cases x with
      | fail err leftover =>
        simp only [loop] at h
        by_cases he : err = .eof
        · subst he
          exact ⟨[], by simp, by simp [WritesOk, decodedOf], Or.inr ⟨leftover, tl, rfl⟩⟩
        · by_cases hu : isUnknownField err = true
          · simp only [he, hu, if_true, if_false] at h
            obtain ⟨pre, hpre, hw, hshape⟩ := (ih _ _).mp h
            refine ⟨.fail err leftover :: pre, ?_, by simpa [decodedOf] using hw, ?_⟩
            · intro y hy
              rcases List.mem_cons.mp hy with rfl | hy
              · exact hu
              · exact hpre y hy
            · rcases hshape with rfl | ⟨l, post, rfl⟩
              · exact Or.inl rfl
              · exact Or.inr ⟨l, post, rfl⟩
          · simp [he, hu] at h
      | ok r =>
        simp only [loop] at h
        cases ht : transform r with
        | fatal f => simp [ht] at h
        | ok m1 =>
          have hv : Valid r := valid_of_transform_ok r m1 ht
          have hstep : ∀ rest, results = [] ∨ results = none :: rest →
              (loop m1 ⟨results.drop 1, passed ++ [m1], closed⟩ tl).exit = .returned none →
              ReachesEOF (.ok r :: tl) results := by
            intro rest hres hl
            obtain ⟨pre, hpre, hw, hshape⟩ := (ih _ _).mp hl
            refine ⟨.ok r :: pre, ?_, ?_, ?_⟩
            · intro y hy
              rcases List.mem_cons.mp hy with rfl | hy
              · exact hv
              · exact hpre y hy
            · intro o ho
              rcases hres with rfl | rfl
              · simp at ho
              · simp only [decodedOf, List.length_cons, List.take_succ_cons,
                  List.mem_cons] at ho
                rcases ho with rfl | ho
                · rfl
                · exact hw o (by simpa using ho)
            · rcases hshape with rfl | ⟨l, post, rfl⟩
              · exact Or.inl rfl
              · exact Or.inr ⟨l, post, rfl⟩
          cases results with
          | nil =>
            simp only [ht, Writer.Write] at h
            exact hstep [] (Or.inl rfl) (by simpa using h)
          | cons res rest =>
            cases res with
            | none =>
              simp only [ht, Writer.Write] at h
              exact hstep rest (Or.inr rfl) (by simpa using h)
            | some e => simp [ht, Writer.Write] at h
    · rintro ⟨pre, hpre, hw, hshape⟩
      rcases hshape with hp | ⟨l, post, hp⟩
      · have := loop_passes pre [] hpre m m results passed closed hw
        rw [List.append_nil] at this
        rw [hp, this]
        rfl
      · rw [hp, loop_passes pre _ hpre m m results passed closed hw]
        simp [loop]

/-! ## The claims -/

/-- C1: on a record whose relation is "identifier" and whose subject relation
is empty, the transform gives the record with the object pair and the subject
pair exchanged, relation and subject relation as they were. -/
theorem transform_identifier_swaps (r : Relation) (hrel : r.relation = "identifier")
    (hsub : r.subjectRelation = "") :
    transform r = .ok ⟨r.subjectType, r.subjectId, r.relation, r.objectType, r.objectId,
      r.subjectRelation⟩ := by
  simp [transform, hrel, hsub]

theorem transform_identifier_swaps_witness :
    transform sampleUser = .ok ⟨"identity", "i1", "identifier", "user", "u1", ""⟩ :=
  transform_identifier_swaps sampleUser (by decide) (by decide)

/-- C2: a record whose relation is not the string "identifier" comes out of
the transform unchanged in all six fields, whatever its subject relation. -/
theorem transform_other_relation_unchanged (r : Relation) (hrel : r.relation ≠ "identifier") :
    transform r = .ok r := by
  simp [transform, hrel]

theorem transform_other_relation_unchanged_witness :
    transform ⟨"group", "g1", "member", "user", "u2", "admins"⟩ =
      .ok ⟨"group", "g1", "member", "user", "u2", "admins"⟩ :=
  transform_other_relation_unchanged ⟨"group", "g1", "member", "user", "u2", "admins"⟩
    (by decide)

/-- C3: on an identifier record with a non-empty subject relation the
transform ends in the fatal exit and gives no record; a run of `invert` that
comes to such a record ends there with that exit, the writer has been handed
only the records before it, and the results after it stay unread. -/
theorem invariant_violation_is_fatal (ctx : Context) (r : Relation)
    (pre post : List ReadResult) (results : List (Option GoError))
    (passed : List Relation) (rc wc : Nat)
    (hrel : r.relation = "identifier") (hsub : r.subjectRelation ≠ "")
    (hpre : ∀ x ∈ pre, Passes x) (hw : WritesOk results (decodedOf pre).length) :
    transform r = .fatal (invariantFatal r) ∧
    invert ctx (.ok ⟨pre ++ .ok r :: post, rc⟩) (.ok ⟨results, passed, wc⟩) =
      ⟨.fatal (invariantFatal r), some ⟨post, rc⟩,
        some ⟨results.drop (decodedOf pre).length,
          passed ++ (decodedOf pre).map expected, wc⟩⟩ := by
  have ht : transform r = .fatal (invariantFatal r) := by
    simp [transform, hrel, hsub]
  refine ⟨ht, ?_⟩
  simp only [invert]
  rw [loop_passes pre _ hpre Relation.zero Relation.zero results passed wc hw]
  simp [loop, ht]

theorem invariant_violation_is_fatal_witness :
    transform sampleBad = .fatal (invariantFatal sampleBad) ∧
    invert ⟨none⟩ (.ok ⟨[.ok sampleUser, .ok sampleBad, .ok sampleGroup], 0⟩)
        (.ok ⟨[], [], 0⟩) =
      ⟨.fatal (invariantFatal sampleBad), some ⟨[.ok sampleGroup], 0⟩,
        some ⟨[], [swapped sampleUser], 0⟩⟩ :=
  invariant_violation_is_fatal ⟨none⟩ sampleBad [.ok sampleUser] [.ok sampleGroup] [] [] 0 0
    (by decide) (by decide) (by decide) (by decide)

/-- C4: on a record whose relation is "identifier" and whose subject relation
is empty, the transform succeeds, succeeds again on its result, and the second
result is the record one started from. -/
theorem transform_twice_identity (r : Relation) (hrel : r.relation = "identifier")
    (hsub : r.subjectRelation = "") :
    ∃ t, transform r = .ok t ∧ transform t = .ok r := by
  obtain ⟨ot, oi, rel, st, si, sr⟩ := r
  simp only at hrel hsub
  subst hrel hsub
  exact ⟨⟨st, si, "identifier", ot, oi, ""⟩, by simp [transform], by simp [transform]⟩

theorem transform_twice_identity_witness :
    ∃ t, transform sampleUser = .ok t ∧ transform t = .ok sampleUser :=
  transform_twice_identity sampleUser (by decide) (by decide)

/-- C5: when the reader decodes the records `rs` one after the other and then
reports end-of-stream, no identifier record among them has a non-empty subject
relation, and every write succeeds, `invert` returns `nil` and has handed the
writer exactly one record for each record of `rs`, in the order of `rs`, each
the transform of its input record: swapped for an identifier relation, the
record itself otherwise. -/
theorem invert_writes_every_record (ctx : Context) (rs : List Relation)
    (results : List (Option GoError)) (passed : List Relation) (rc wc : Nat)
    (hvalid : ∀ r ∈ rs, Valid r) (hw : ∀ o ∈ results, o = none) :
    invert ctx (.ok ⟨rs.map .ok, rc⟩) (.ok ⟨results, passed, wc⟩) =
      ⟨.returned none, some ⟨[], rc + 1⟩,
        some ⟨results.drop rs.length, passed ++ rs.map expected, wc + 1⟩⟩ ∧
    (rs.map expected).length = rs.length ∧
    rs.map transform = (rs.map expected).map .ok := by
  refine ⟨?_, by simp, ?_⟩
  · have h := loop_passes (rs.map .ok) [] (passes_map_ok rs hvalid) Relation.zero Relation.zero
      results passed wc (writesOk_of_all _ _ hw)
    rw [List.append_nil, decodedOf_map_ok] at h
    simp [invert, h, loop, Reader.Close, Writer.Close]
  · rw [List.map_map]
    exact List.map_congr_left (fun r hr => transform_of_valid r (hvalid r hr))

theorem invert_writes_every_record_witness :
    invert ⟨none⟩ (.ok ⟨[.ok sampleUser, .ok sampleGroup], 0⟩) (.ok ⟨[], [], 0⟩) =
      ⟨.returned none, some ⟨[], 1⟩,
        some ⟨[], [⟨"identity", "i1", "identifier", "user", "u1", ""⟩, sampleGroup], 1⟩⟩ :=
  (invert_writes_every_record ⟨none⟩ [sampleUser, sampleGroup] [] [] 0 0
    (by decide) (by decide)).1

/-- C6: when every result of the reader is a decoded record that satisfies the
invariant or an unknown-field error, and every write succeeds, `invert`
returns `nil` and the writer has been handed the transforms of the decoded
records, in order, the elements with the unknown-field error left out. -/
theorem unknown_field_elements_dropped (ctx : Context) (pending : List ReadResult)
    (results : List (Option GoError)) (passed : List Relation) (rc wc : Nat)
    (hpass : ∀ x ∈ pending, Passes x) (hw : ∀ o ∈ results, o = none) :
    invert ctx (.ok ⟨pending, rc⟩) (.ok ⟨results, passed, wc⟩) =
      ⟨.returned none, some ⟨[], rc + 1⟩,
        some ⟨results.drop (decodedOf pending).length,
          passed ++ (decodedOf pending).map expected, wc + 1⟩⟩ := by
  have h := loop_passes pending [] hpass Relation.zero Relation.zero
    results passed wc (writesOk_of_all _ _ hw)
  rw [List.append_nil] at h
  simp [invert, h, loop, Reader.Close, Writer.Close]

theorem unknown_field_elements_dropped_witness :
    invert ⟨none⟩
        (.ok ⟨[.ok sampleUser, .fail sampleUnknown sampleBad, .ok sampleGroup], 0⟩)
        (.ok ⟨[], [], 0⟩) =
      ⟨.returned none, some ⟨[], 1⟩,
        some ⟨[], [⟨"identity", "i1", "identifier", "user", "u1", ""⟩, sampleGroup], 1⟩⟩ :=
  unknown_field_elements_dropped ⟨none⟩
    [.ok sampleUser, .fail sampleUnknown sampleBad, .ok sampleGroup] [] [] 0 0
    (by decide) (by decide)

/-- C7, against the claim: a read error that is neither end-of-stream nor an
unknown-field error, an invalid value whose text quotes the words "unknown
field", is not returned: `invert` skips the element, goes on to read and write
the next record, and returns `nil`. -/
theorem quoted_words_error_is_skipped :
    sampleQuoting ≠ .eof ∧
    invert ⟨none⟩ (.ok ⟨[.fail sampleQuoting sampleBad, .ok sampleGroup], 0⟩)
        (.ok ⟨[], [], 0⟩) =
      ⟨.returned none, some ⟨[], 1⟩, some ⟨[], [sampleGroup], 1⟩⟩ := by
  decide

/-- C7, amended: in a run of `invert` that comes to a read error which is not
`io.EOF` and whose text does not contain the words "unknown field" (the test
of line 151), `invert` returns that very error, the
writer has been handed only the records before it and the later results stay
unread; in a run that comes to a failing `Write`, `invert` returns the error
of that `Write`, the record of that call is the last one handed to the writer
and the later results stay unread; and `invert` returns `nil` exactly when
the loop comes to an end-of-stream. -/
theorem read_and_write_errors_are_fatal (ctx : Context) (pre post : List ReadResult)
    (results : List (Option GoError)) (passed : List Relation) (rc wc : Nat)
    (hpre : ∀ x ∈ pre, Passes x) (hw : WritesOk results (decodedOf pre).length) :
    (∀ err leftover, err ≠ .eof → isUnknownField err = false →
      invert ctx (.ok ⟨pre ++ .fail err leftover :: post, rc⟩) (.ok ⟨results, passed, wc⟩) =
        ⟨.returned (some err), some ⟨post, rc + 1⟩,
          some ⟨results.drop (decodedOf pre).length,
            passed ++ (decodedOf pre).map expected, wc + 1⟩⟩) ∧
    (∀ r err wrest, Valid r → results.drop (decodedOf pre).length = some err :: wrest →
      invert ctx (.ok ⟨pre ++ .ok r :: post, rc⟩) (.ok ⟨results, passed, wc⟩) =
        ⟨.returned (some err), some ⟨post, rc + 1⟩,
          some ⟨wrest, passed ++ (decodedOf pre).map expected ++ [expected r], wc + 1⟩⟩) ∧
    (∀ rd w, (invert ctx (.ok rd) (.ok w)).exit = .returned none ↔
      ReachesEOF rd.pending w.results) := by
  refine ⟨?_, ?_, ?_⟩
  · intro err leftover hne hnu
    simp only [invert]
    rw [loop_passes pre _ hpre Relation.zero Relation.zero results passed wc hw]
    simp [loop, hne, hnu, Reader.Close, Writer.Close]
  · intro r err wrest hv hres
    simp only [invert]
    rw [loop_passes pre _ hpre Relation.zero Relation.zero results passed wc hw]
    simp [loop, transform_of_valid r hv, Writer.Write, hres, Reader.Close, Writer.Close]
  · intro rd w
    rw [invert_exit]
    exact loop_nil_iff rd.pending Relation.zero w

theorem read_and_write_errors_are_fatal_witness :
    invert ⟨none⟩
        (.ok ⟨[.ok sampleUser, .fail sampleSyntaxErr sampleBad, .ok sampleGroup], 0⟩)
        (.ok ⟨[none, some sampleSinkErr], [], 0⟩) =
      ⟨.returned (some sampleSyntaxErr), some ⟨[.ok sampleGroup], 1⟩,
        some ⟨[some sampleSinkErr], [swapped sampleUser], 1⟩⟩ ∧
    invert ⟨none⟩
        (.ok ⟨[.ok sampleUser, .ok sampleGroup, .ok sampleUser], 0⟩)
        (.ok ⟨[none, some sampleSinkErr], [], 0⟩) =
      ⟨.returned (some sampleSinkErr), some ⟨[.ok sampleUser], 1⟩,
        some ⟨[], [swapped sampleUser, sampleGroup], 1⟩⟩ :=
  ⟨(read_and_write_errors_are_fatal ⟨none⟩ [.ok sampleUser] [.ok sampleGroup]
      [none, some sampleSinkErr] [] 0 0 (by decide) (by decide)).1
      sampleSyntaxErr sampleBad (by decide) (by decide),
   (read_and_write_errors_are_fatal ⟨none⟩ [.ok sampleUser] [.ok sampleUser]
      [none, some sampleSinkErr] [] 0 0 (by decide) (by decide)).2.1
      sampleGroup sampleSinkErr [] (by decide) (by decide)⟩

/-- C8, as the code has it: when the command returns an error, `run` prints
the error text on standard error and returns `rcOK`, which is 0, the value it
also returns when the command succeeds. -/
theorem run_returns_zero_on_error (err : GoError) :
    run (some err) = ⟨0, [err.Error]⟩ ∧ run none = ⟨0, []⟩ ∧ (exitErr err []).1 = 1 := by
  refine ⟨rfl, rfl, rfl⟩

/-- C9, against the claim: a run in which reader and writer are opened and the
first record breaks the invariant ends in the fatal exit with neither `Close`
called. -/
theorem no_close_on_invariant_violation :
    invert ⟨none⟩ (.ok ⟨[.ok sampleBad], 0⟩) (.ok ⟨[], [], 0⟩) =
      ⟨.fatal (invariantFatal sampleBad), some ⟨[], 0⟩, some ⟨[], [], 0⟩⟩ := by
  decide

/-- C9, amended: in every run in which reader and writer were opened and
`invert` returns, with `nil` or with an error, `Reader.Close` and
`Writer.Close` have each been called exactly once. -/
theorem closes_once_when_invert_returns (ctx : Context) (rd : Reader) (w : Writer)
    (err : Option GoError) (h : (invert ctx (.ok rd) (.ok w)).exit = .returned err) :
    ∃ rd1 w1, (invert ctx (.ok rd) (.ok w)).reader = some rd1 ∧
      (invert ctx (.ok rd) (.ok w)).writer = some w1 ∧
      rd1.closed = rd.closed + 1 ∧ w1.closed = w.closed + 1 := by
  have hc := loop_writer_closed rd.pending Relation.zero w
  simp only [invert] at h ⊢
  cases hfin : (loop Relation.zero w rd.pending).exit with
  | fatal f => simp [hfin] at h
  | returned e => simp [Reader.Close, Writer.Close, hc]

theorem closes_once_when_invert_returns_witness :
    ∃ rd1 w1,
      (invert ⟨none⟩ (.ok ⟨[.ok sampleUser, .fail sampleSyntaxErr sampleBad], 0⟩)
        (.ok ⟨[], [], 0⟩)).reader = some rd1 ∧
      (invert ⟨none⟩ (.ok ⟨[.ok sampleUser, .fail sampleSyntaxErr sampleBad], 0⟩)
        (.ok ⟨[], [], 0⟩)).writer = some w1 ∧
      rd1.closed = 0 + 1 ∧ w1.closed = 0 + 1 :=
  closes_once_when_invert_returns ⟨none⟩
    ⟨[.ok sampleUser, .fail sampleSyntaxErr sampleBad], 0⟩ ⟨[], [], 0⟩
    (some sampleSyntaxErr) (by decide)

/-- C10, as the code has it: with a context that is already cancelled on
entry, `invert` reads the record of the stream, hands it to the writer and
returns `nil` after the end-of-stream, as it does with a live context. -/
theorem cancelled_context_still_processed :
    invert ⟨some 0⟩ (.ok ⟨[.ok sampleGroup], 0⟩) (.ok ⟨[], [], 0⟩) =
      ⟨.returned none, some ⟨[], 1⟩, some ⟨[], [sampleGroup], 1⟩⟩ := by
  decide

end InvIdent
